import Mathlib

/-!
Verification of `01/run.py` (Advent of Code 2019, day 1).

The Python source, in full:

  def fuel(mass):
      return mass // 3 - 2

  def extra_fuel(mass):
      mass = fuel(mass)
      if mass <= 0:
          return 0
      return mass + extra_fuel(mass)

  with open("input") as f:
      print("1-1:")
      print(sum([fuel(int(line)) for line in f.readlines()]))
  with open("input") as f:
      print("1-2:")
      print(sum([extra_fuel(int(line)) for line in f.readlines()]))

Python `//` on integers is floor division, embedded as `Int.fdiv`.
The two passes of the driver are modelled as functions from the list of
lines of the input file to `Option Int`; `none` models an uncaught
`ValueError` raised by `int(line)`.
-/

/-- Python `fuel(mass)`: `mass // 3 - 2` with `//` the floor division. -/
def fuel (mass : Int) : Int := Int.fdiv mass 3 - 2

lemma fuel_eq_ediv (m : Int) : fuel m = m / 3 - 2 := by
  unfold fuel
  rw [Int.fdiv_eq_ediv _ (by norm_num)]

lemma fuel_nonpos_of_le (m : Int) (h : m ≤ 8) : fuel m ≤ 0 := by
  rw [fuel_eq_ediv]; omega

lemma fuel_pos_of_ge (m : Int) (h : 9 ≤ m) : 0 < fuel m := by
  rw [fuel_eq_ediv]; omega

lemma fuel_lt_self (m : Int) (h : 0 < fuel m) : fuel m < m := by
  rw [fuel_eq_ediv] at h ⊢; omega

lemma fuel_toNat_lt (m : Int) (h : 0 < fuel m) : (fuel m).toNat < m.toNat := by
  have h1 := fuel_lt_self m h
  omega

/-- Python `extra_fuel(mass)`, translated directly (the Python code first
reassigns `mass = fuel(mass)` and then tests it, which is the same as testing
`fuel mass`).  The recursion is well-founded on the measure `Int.toNat`. -/
def extra_fuel (mass : Int) : Int :=
  if h : fuel mass ≤ 0 then 0
  else fuel mass + extra_fuel (fuel mass)
termination_by mass.toNat
decreasing_by
  exact fuel_toNat_lt mass (by omega)

lemma extra_fuel_of_nonpos (m : Int) (h : fuel m ≤ 0) : extra_fuel m = 0 := by
  conv_lhs => unfold extra_fuel
  rw [dif_pos h]

lemma extra_fuel_of_pos (m : Int) (h : 0 < fuel m) :
    extra_fuel m = fuel m + extra_fuel (fuel m) := by
  conv_lhs => unfold extra_fuel
  rw [dif_neg (by omega)]

/-- Gas-bounded companion of `extra_fuel`, structurally recursive so that the
kernel can evaluate it on closed inputs; `extra_fuelAux_spec` proves it agrees
with `extra_fuel` whenever the gas bound is at least `m.toNat`. -/
def extra_fuelAux : Nat → Int → Int
  | 0, _ => 0
  | k + 1, mass =>
    if fuel mass ≤ 0 then 0 else fuel mass + extra_fuelAux k (fuel mass)

lemma extra_fuelAux_spec : ∀ (k : Nat) (m : Int), m.toNat ≤ k →
    extra_fuelAux k m = extra_fuel m := by
  intro k
  induction k with
  | zero =>
    intro m hm
    have h0 : fuel m ≤ 0 := fuel_nonpos_of_le m (by omega)
    rw [extra_fuel_of_nonpos m h0]
    rfl
  | succ k ih =>
    intro m hm
    by_cases h : fuel m ≤ 0
    · rw [extra_fuel_of_nonpos m h]
      simp [extra_fuelAux, h]
    · have hpos : 0 < fuel m := by omega
      rw [extra_fuel_of_pos m hpos]
      have hlt := fuel_toNat_lt m hpos
      simp only [extra_fuelAux, if_neg h]
      rw [ih (fuel m) (by omega)]

lemma extra_fuel_compute (m : Int) : extra_fuel m = extra_fuelAux m.toNat m :=
  (extra_fuelAux_spec m.toNat m le_rfl).symm

lemma extra_fuelAux_nonneg : ∀ (k : Nat) (m : Int), 0 ≤ extra_fuelAux k m := by
  intro k
  induction k with
  | zero =>
    intro m
    simp [extra_fuelAux]
  | succ k ih =>
    intro m
    by_cases h : fuel m ≤ 0
    · simp [extra_fuelAux, h]
    · have := ih (fuel m)
      simp only [extra_fuelAux, if_neg h]
      omega

lemma extra_fuel_nonneg_all (m : Int) : 0 ≤ extra_fuel m := by
  rw [extra_fuel_compute]
  exact extra_fuelAux_nonneg _ _

/-- Modelled from the spec (design note): the iterative accumulation loop that
replaces the self-recursion of `extra_fuel` — repeatedly apply `fuel` to the
previous fuel value, accumulate each result while it is positive, and stop at
the first non-positive value.  The loop is expressed with an explicit gas
bound `k`; `loopAux_eq` shows the accumulator semantics, and the gas
`mass.toNat` is enough for the loop to reach its stopping condition. -/
def loopAux : Nat → Int → Int → Int
  | 0, _, acc => acc
  | k + 1, m, acc =>
    if fuel m ≤ 0 then acc else loopAux k (fuel m) (acc + fuel m)

def extra_fuel_iter (mass : Int) : Int := loopAux mass.toNat mass 0

lemma loopAux_eq : ∀ (k : Nat) (m acc : Int),
    loopAux k m acc = acc + extra_fuelAux k m := by
  intro k
  induction k with
  | zero =>
    intro m acc
    simp [loopAux, extra_fuelAux]
  | succ k ih =>
    intro m acc
    by_cases h : fuel m ≤ 0
    · simp [loopAux, extra_fuelAux, h]
    · simp only [loopAux, extra_fuelAux, if_neg h]
      rw [ih (fuel m) (acc + fuel m)]
      omega

/-- Consume the remaining characters of a decimal digit run, as Python
`int()` does: each further character is a digit, or a single underscore
followed by a digit.  `acc` is the value of the digits already read. -/
def pyDigitsAux : List Char → Nat → Option Nat
  | [], acc => some acc
  | '_' :: c :: cs, acc =>
    if c.isDigit then pyDigitsAux cs (acc * 10 + (c.toNat - 48)) else none
  | c :: cs, acc =>
    if c.isDigit then pyDigitsAux cs (acc * 10 + (c.toNat - 48)) else none

/-- A non-empty decimal digit run: a first digit, then `pyDigitsAux`. -/
def pyDigits : List Char → Option Nat
  | [] => none
  | c :: cs => if c.isDigit then pyDigitsAux cs (c.toNat - 48) else none

/-- Strip leading and trailing whitespace, as Python `int()` does before
reading the number. -/
def pyTrim (cs : List Char) : List Char :=
  ((cs.dropWhile Char.isWhitespace).reverse.dropWhile Char.isWhitespace).reverse

/-- Model of Python `int(line)`: strip surrounding whitespace, then an
optional sign followed by a non-empty digit run.  `none` models the uncaught
`ValueError` on anything else. -/
def pyInt (s : String) : Option Int :=
  match pyTrim s.toList with
  | '+' :: rest => (pyDigits rest).map (fun n => (n : Int))
  | '-' :: rest => (pyDigits rest).map (fun n => -(n : Int))
  | cs => (pyDigits cs).map (fun n => (n : Int))

/-- Parse every line of the file; the comprehension `[... int(line) ...]`
raises as soon as one line fails to parse, modelled by `none`. -/
def parseAll : List String → Option (List Int)
  | [] => some []
  | l :: ls =>
    match pyInt l, parseAll ls with
    | some v, some vs => some (v :: vs)
    | _, _ => none

/-- `sum([fuel(int(line)) for line in f.readlines()])` on parsed lines. -/
def part1 (masses : List Int) : Int := (masses.map fuel).sum

/-- `sum([extra_fuel(int(line)) for line in f.readlines()])` on parsed lines. -/
def part2 (masses : List Int) : Int := (masses.map extra_fuel).sum

/-- First pass of the driver on the list of lines of the input file. -/
def driver1 (lines : List String) : Option Int := (parseAll lines).map part1

/-- Second pass of the driver on the list of lines of the input file. -/
def driver2 (lines : List String) : Option Int := (parseAll lines).map part2

lemma parseAll_none : ∀ (lines : List String) (l : String), l ∈ lines →
    pyInt l = none → parseAll lines = none := by
  intro lines
  induction lines with
  | nil =>
    intro l h
    exact absurd h (List.not_mem_nil l)
  | cons x xs ih =>
    intro l hmem hfail
    rcases List.mem_cons.mp hmem with h | h
    · subst h
      unfold parseAll
      rw [hfail]
    · unfold parseAll
      rw [ih l h hfail]
      cases pyInt x <;> rfl

/-- C1: for every integer `m`, `fuel m` equals `floor(m/3) - 2`, the floor
taken over the rationals — Python floor division, for negative `m` and for
negative results included. -/
theorem fuel_floor (m : Int) : fuel m = ⌊(m : ℚ) / 3⌋ - 2 := by
  rw [fuel_eq_ediv]
  have h3 : ((3 : ℚ)) = ((3 : ℕ) : ℚ) := by norm_num
  rw [h3, Rat.floor_intCast_div_natCast]
  norm_num

/-- C2: `extra_fuel` satisfies its defining recurrence: it is `0` when
`fuel m ≤ 0`, and `fuel m + extra_fuel (fuel m)` when `fuel m > 0`. -/
theorem extra_fuel_recurrence (m : Int) :
    (fuel m ≤ 0 → extra_fuel m = 0) ∧
    (0 < fuel m → extra_fuel m = fuel m + extra_fuel (fuel m)) :=
  ⟨fun h => extra_fuel_of_nonpos m h, fun h => extra_fuel_of_pos m h⟩

theorem extra_fuel_recurrence_witness :
    extra_fuel 2 = 0 ∧ extra_fuel 14 = fuel 14 + extra_fuel (fuel 14) :=
  ⟨(extra_fuel_recurrence 2).1 (by decide),
   (extra_fuel_recurrence 14).2 (by decide)⟩

/-- C3: whenever `extra_fuel` recurses (i.e. `fuel m > 0`), its recursive
argument `fuel m` is strictly smaller than `m`, and strictly smaller in the
measure `Int.toNat` on which `extra_fuel` is defined by well-founded
recursion — so the recursion terminates and `extra_fuel` is total. -/
theorem extra_fuel_terminating (m : Int) (h : 0 < fuel m) :
    fuel m < m ∧ (fuel m).toNat < m.toNat :=
  ⟨fuel_lt_self m h, fuel_toNat_lt m h⟩

theorem extra_fuel_terminating_witness :
    0 < fuel 100 ∧ fuel 100 < 100 ∧ (fuel 100).toNat < (100 : Int).toNat :=
  ⟨by decide, (extra_fuel_terminating 100 (by decide)).1,
   (extra_fuel_terminating 100 (by decide)).2⟩

/-- C4: on an input file with lines `12`, `14`, `1969`, `100756`, the first
printed sum is `34241` and the second printed sum is `51316`. -/
theorem driver_example :
    driver1 (["12", "14", "1969", "100756"]) = some 34241 ∧
    driver2 (["12", "14", "1969", "100756"]) = some 51316 := by
  have hp : parseAll (["12", "14", "1969", "100756"]) =
      some ([12, 14, 1969, 100756]) := by decide
  constructor
  · simp only [driver1, hp, Option.map_some', Option.some.injEq]
    decide
  · simp only [driver2, hp, Option.map_some', Option.some.injEq, part2,
      List.map_cons, List.map_nil, extra_fuel_compute]
    decide

/-- C5: the concrete cases of the spec: `fuel 12 = 2`, `fuel 14 = 2`,
`fuel 1969 = 654`, `fuel 100756 = 33583`, and `extra_fuel 14 = 2`,
`extra_fuel 1969 = 966`, `extra_fuel 100756 = 50346`. -/
theorem concrete_cases :
    fuel 12 = 2 ∧ fuel 14 = 2 ∧ fuel 1969 = 654 ∧ fuel 100756 = 33583 ∧
    extra_fuel 14 = 2 ∧ extra_fuel 1969 = 966 ∧ extra_fuel 100756 = 50346 := by
  simp only [extra_fuel_compute]
  decide

/-- C6: the recursive `extra_fuel` equals the iterative accumulation loop
`extra_fuel_iter` of the spec's design note, for every integer input. -/
theorem extra_fuel_eq_iter (m : Int) : extra_fuel m = extra_fuel_iter m := by
  rw [extra_fuel_compute]
  unfold extra_fuel_iter
  rw [loopAux_eq]
  omega

/-- C7: on an empty input file the driver does not fault and both printed
sums are `0`. -/
theorem driver_empty : driver1 ([]) = some 0 ∧ driver2 ([]) = some 0 := by
  constructor <;> rfl

/-- C8: if any line of the input file is not parseable as an integer, each
pass of the driver surfaces the parse fault (modelled by `none`) instead of
producing a sum. -/
theorem driver_parse_fault (lines : List String) (l : String)
    (hmem : l ∈ lines) (hfail : pyInt l = none) :
    driver1 lines = none ∧ driver2 lines = none := by
  have hp : parseAll lines = none := parseAll_none lines l hmem hfail
  constructor <;> simp [driver1, driver2, hp]

theorem driver_parse_fault_witness :
    (("abc") ∈ (["12", "abc"]) ∧ pyInt ("abc") = none) ∧
    driver1 (["12", "abc"]) = none ∧ driver2 (["12", "abc"]) = none :=
  ⟨⟨by decide, by decide⟩,
   driver_parse_fault (["12", "abc"]) ("abc") (by decide) (by decide)⟩

/-- C9: `extra_fuel` is never negative, for every integer input, negative
inputs included, even though intermediate fuel values may be negative. -/
theorem extra_fuel_nonneg (m : Int) : 0 ≤ extra_fuel m :=
  extra_fuel_nonneg_all m

/-- C10: `extra_fuel m = 0` exactly for the integers `m ≤ 8`, and
`extra_fuel m > 0` for every integer `m ≥ 9`. -/
theorem extra_fuel_eq_zero_iff (m : Int) :
    (extra_fuel m = 0 ↔ m ≤ 8) ∧ (9 ≤ m → 0 < extra_fuel m) := by
  have hle : m ≤ 8 → extra_fuel m = 0 :=
    fun h => extra_fuel_of_nonpos m (fuel_nonpos_of_le m h)
  have hgt : 9 ≤ m → 0 < extra_fuel m := by
    intro h
    have hpos := fuel_pos_of_ge m h
    rw [extra_fuel_of_pos m hpos]
    have hnn : 0 ≤ extra_fuel (fuel m) := extra_fuel_nonneg_all (fuel m)
    omega
  refine ⟨⟨fun h0 => ?_, hle⟩, hgt⟩
  by_contra hc
  have := hgt (by omega)
  omega

theorem extra_fuel_eq_zero_iff_witness :
    extra_fuel 8 = 0 ∧ 0 < extra_fuel 9 :=
  ⟨(extra_fuel_eq_zero_iff 8).1.mpr (by decide),
   (extra_fuel_eq_zero_iff 9).2 (by decide)⟩
